import Mathlib

/-!
Verification of the temporal rate/delta reduction core
(`src/query/functions/temporal/rate.go`).

Shallow embedding conventions:
* A window sample is `Option ℚ`: `none` models the NaN gap sentinel and
  `some q` a real floating-point value (spec values are exact, so exact
  rationals are used; NaN propagation through arithmetic is modelled by
  `Option` propagation, since any arithmetic touching NaN yields NaN).
* A step duration (`time.Duration`, int64 nanoseconds) is `ℤ`.
* The reducer result is `Option ℚ`: `none` models the NaN "undefined"
  marker returned by `instantValue`.
-/

/-- A window sample: `none` is the NaN gap marker, `some q` a real value. -/
abbrev Sample := Option ℚ

/-- The mode token `IRateTemporalType` = "irate". -/
def IRateTemporalType : String := "irate"

/-- The mode token `IDeltaTemporalType` = "idelta". -/
def IDeltaTemporalType : String := "idelta"

/-- The loop of `findNonNanIdx`, scanning downward from a nonnegative
index `i`: return the first index at or below `i` whose sample is
non-NaN, else `-1`. Out-of-range reads are represented by
`List.getD _ _ none`, which never occurs in the reachable calls. -/
def findNonNanIdxAux (vals : List Sample) : Nat → ℤ
  | 0 => if (vals.getD 0 none).isSome then 0 else -1
  | n + 1 => if (vals.getD (n + 1) none).isSome then (n : ℤ) + 1 else findNonNanIdxAux vals n

/-- `findNonNanIdx` iterates over the values backwards from `startingIdx`
until a non-NaN value is found, returning its index, or `-1` when the
loop runs out (`for i := startingIdx; i >= 0; i--`). -/
def findNonNanIdx (vals : List Sample) (startingIdx : ℤ) : ℤ :=
  if 0 ≤ startingIdx then findNonNanIdxAux vals startingIdx.toNat else -1

/-- `instantValue` from rate.go: the window reducer. `isRate` selects rate
mode, `stepSize` is the step duration in nanoseconds. The two
`| none => none` match arms model NaN propagation: if an indexed sample
were NaN, the Go arithmetic below would produce NaN (the comparison with
NaN is false and the subtraction is NaN), i.e. the undefined marker. -/
def instantValue (values : List Sample) (isRate : Bool) (stepSize : ℤ) : Option ℚ :=
  if values.length < 2 then none
  else
    let nonNanIdx := findNonNanIdx values ((values.length : ℤ) - 1)
    if nonNanIdx < 1 then none
    else
      match values.getD nonNanIdx.toNat none with
      | none => none
      | some lastSample =>
        let nonNanIdx2 := findNonNanIdx values (nonNanIdx - 1)
        if nonNanIdx2 = -1 then none
        else
          match values.getD nonNanIdx2.toNat none with
          | none => none
          | some previousSample =>
            let resultValue :=
              if isRate = true ∧ lastSample < previousSample then lastSample
              else lastSample - previousSample
            if isRate = true then some (resultValue / ((stepSize : ℚ) / 10 ^ 9))
            else some resultValue

/-- A constructed rate processor (`rateNode`): the operator type string and
the bound step duration (from the pipeline time specification). -/
structure RateNode where
  operatorType : String
  step : ℤ

/-- Modelled from the spec: `newBaseOp` and the `baseOp`/`Processor`
machinery live outside this repository slice; per spec §4.1 the factory,
on a recognized mode, "returns a Processor closed over the resolved mode
and the step duration supplied by the surrounding pipeline's timing
specification", with no further failure at construction. -/
def newBaseOp (optype : String) (step : ℤ) : Except String RateNode :=
  Except.ok ⟨optype, step⟩

/-- `NewRateOp`: validate the mode token; build the processor on the two
recognized tokens, otherwise fail with "unknown rate type: <token>". -/
def NewRateOp (optype : String) (step : ℤ) : Except String RateNode :=
  if optype = IRateTemporalType ∨ optype = IDeltaTemporalType then newBaseOp optype step
  else Except.error ("unknown rate type: " ++ optype)

/-- `rateNode.Process`: dispatch on the stored operator type; `none`
models the `panic("unknown rate type")` default branch. -/
def RateNode.Process (r : RateNode) (values : List Sample) : Option (Option ℚ) :=
  if r.operatorType = IRateTemporalType then some (instantValue values true r.step)
  else if r.operatorType = IDeltaTemporalType then some (instantValue values false r.step)
  else none

/-- An out-of-range `getD` read yields the gap default. -/
lemma getD_eq_none_of_le (vals : List Sample) (i : Nat) (h : vals.length ≤ i) :
    vals.getD i none = none := by
  simp [List.getD_eq_getElem?_getD, List.getElem?_eq_none h]

/-- A non-gap read is in range. -/
lemma lt_length_of_getD_isSome (vals : List Sample) (i : Nat)
    (h : (vals.getD i none).isSome = true) : i < vals.length := by
  by_contra hc
  rw [getD_eq_none_of_le vals i (by omega)] at h
  simp at h

/-- The scan result is at least -1. -/
lemma findNonNanIdxAux_ge (vals : List Sample) : ∀ n, -1 ≤ findNonNanIdxAux vals n
  | 0 => by unfold findNonNanIdxAux; split <;> omega
  | n + 1 => by
    unfold findNonNanIdxAux
    split
    · omega
    · exact findNonNanIdxAux_ge vals n

/-- The scan result does not exceed the starting index. -/
lemma findNonNanIdxAux_le (vals : List Sample) : ∀ n, findNonNanIdxAux vals n ≤ (n : ℤ)
  | 0 => by unfold findNonNanIdxAux; split <;> omega
  | n + 1 => by
    unfold findNonNanIdxAux
    split
    · omega
    · have := findNonNanIdxAux_le vals n
      omega

/-- The scan returns -1 exactly when every position at or below the
starting index is a gap. -/
lemma findNonNanIdxAux_eq_neg_one_iff (vals : List Sample) :
    ∀ n, findNonNanIdxAux vals n = -1 ↔ ∀ i : Nat, i ≤ n → vals.getD i none = none
  | 0 => by
    unfold findNonNanIdxAux
    split
    next h =>
      constructor
      · intro h0; exact absurd h0 (by norm_num)
      · intro hall
        rw [hall 0 le_rfl] at h
        simp at h
    next h =>
      rw [Option.not_isSome_iff_eq_none] at h
      constructor
      · intro _ i hi
        have hi0 : i = 0 := by omega
        rw [hi0]; exact h
      · intro _; rfl
  | n + 1 => by
    unfold findNonNanIdxAux
    split
    next h =>
      constructor
      · intro h0; exact absurd h0 (by omega)
      · intro hall
        rw [hall (n + 1) le_rfl] at h
        simp at h
    next h =>
      rw [findNonNanIdxAux_eq_neg_one_iff vals n]
      rw [Option.not_isSome_iff_eq_none] at h
      constructor
      · intro hall i hi
        rcases Nat.lt_or_ge i (n + 1) with hlt | hge
        · exact hall i (by omega)
        · have hi1 : i = n + 1 := by omega
          rw [hi1]; exact h
      · intro hall i hi
        exact hall i (by omega)

/-- When the scan returns a nonnegative index `k`, position `k` is
non-gap and every position strictly between `k` and the starting index
is a gap. -/
lemma findNonNanIdxAux_spec (vals : List Sample) :
    ∀ (n k : Nat), findNonNanIdxAux vals n = (k : ℤ) →
      k ≤ n ∧ (vals.getD k none).isSome = true ∧
        ∀ i : Nat, k < i → i ≤ n → vals.getD i none = none
  | 0, k => by
    unfold findNonNanIdxAux
    split
    next h =>
      intro hk
      have hk0 : k = 0 := by omega
      subst hk0
      exact ⟨le_rfl, h, fun i hi1 hi2 => absurd hi2 (by omega)⟩
    next h =>
      intro hk
      exact absurd hk (by omega)
  | n + 1, k => by
    unfold findNonNanIdxAux
    split
    next h =>
      intro hk
      have hk1 : k = n + 1 := by omega
      subst hk1
      exact ⟨le_rfl, h, fun i hi1 hi2 => absurd hi2 (by omega)⟩
    next h =>
      intro hk
      obtain ⟨h1, h2, h3⟩ := findNonNanIdxAux_spec vals n k hk
      refine ⟨by omega, h2, fun i hi1 hi2 => ?_⟩
      rcases Nat.lt_or_ge i (n + 1) with hlt | hge
      · exact h3 i hi1 (by omega)
      · have hi1' : i = n + 1 := by omega
        rw [hi1']
        exact Option.not_isSome_iff_eq_none.mp h

/-- The number of valid (non-gap, i.e. non-NaN) samples in a window. -/
def validCount (vals : List Sample) : Nat := vals.countP Option.isSome

/-- Unfolding `validCount` over cons with a valid head. -/
lemma validCount_cons_some (v : Sample) (t : List Sample) (h : v.isSome = true) :
    validCount (v :: t) = validCount t + 1 := by
  simp [validCount, List.countP_cons, h]

/-- Unfolding `validCount` over cons with a gap head. -/
lemma validCount_cons_none (v : Sample) (t : List Sample) (h : v.isSome = false) :
    validCount (v :: t) = validCount t := by
  simp [validCount, List.countP_cons, h]

/-- One non-gap position forces at least one counted valid sample. -/
lemma one_le_validCount_of_getD_isSome :
    ∀ (vals : List Sample) (i : Nat), (vals.getD i none).isSome = true →
      1 ≤ validCount vals
  | [], i, h => by simp at h
  | v :: t, 0, h => by
    rw [List.getD_cons_zero] at h
    rw [validCount_cons_some v t h]
    omega
  | v :: t, i + 1, h => by
    rw [List.getD_cons_succ] at h
    have := one_le_validCount_of_getD_isSome t i h
    cases hv : v.isSome
    · rw [validCount_cons_none v t hv]; omega
    · rw [validCount_cons_some v t hv]; omega

/-- At least one counted valid sample yields a non-gap position. -/
lemma exists_getD_isSome_of_one_le_validCount :
    ∀ (vals : List Sample), 1 ≤ validCount vals →
      ∃ i : Nat, (vals.getD i none).isSome = true
  | [], h => by simp [validCount] at h
  | v :: t, h => by
    cases hv : v.isSome
    · rw [validCount_cons_none v t hv] at h
      obtain ⟨i, hi⟩ := exists_getD_isSome_of_one_le_validCount t h
      exact ⟨i + 1, by rw [List.getD_cons_succ]; exact hi⟩
    · exact ⟨0, by rw [List.getD_cons_zero]; exact hv⟩

/-- Two distinct non-gap positions force at least two counted valid
samples. -/
lemma two_le_validCount_of_two_getD_isSome :
    ∀ (vals : List Sample) (i j : Nat), i < j →
      (vals.getD i none).isSome = true → (vals.getD j none).isSome = true →
      2 ≤ validCount vals
  | [], i, j, hij, hi, hj => by simp at hi
  | v :: t, 0, j, hij, hi, hj => by
    rw [List.getD_cons_zero] at hi
    obtain ⟨j', rfl⟩ : ∃ j', j = j' + 1 := ⟨j - 1, by omega⟩
    rw [List.getD_cons_succ] at hj
    have := one_le_validCount_of_getD_isSome t j' hj
    rw [validCount_cons_some v t hi]
    omega
  | v :: t, i + 1, j, hij, hi, hj => by
    obtain ⟨j', rfl⟩ : ∃ j', j = j' + 1 := ⟨j - 1, by omega⟩
    rw [List.getD_cons_succ] at hi hj
    have := two_le_validCount_of_two_getD_isSome t i j' (by omega) hi hj
    cases hv : v.isSome
    · rw [validCount_cons_none v t hv]; omega
    · rw [validCount_cons_some v t hv]; omega

/-- At least two counted valid samples yield two distinct non-gap
positions. -/
lemma exists_two_getD_isSome_of_two_le_validCount :
    ∀ (vals : List Sample), 2 ≤ validCount vals →
      ∃ i j : Nat, i < j ∧ (vals.getD i none).isSome = true ∧
        (vals.getD j none).isSome = true
  | [], h => by simp [validCount] at h
  | v :: t, h => by
    cases hv : v.isSome
    · rw [validCount_cons_none v t hv] at h
      obtain ⟨i, j, hij, hi, hj⟩ := exists_two_getD_isSome_of_two_le_validCount t h
      exact ⟨i + 1, j + 1, by omega, by rw [List.getD_cons_succ]; exact hi,
        by rw [List.getD_cons_succ]; exact hj⟩
    · rw [validCount_cons_some v t hv] at h
      obtain ⟨j, hj⟩ := exists_getD_isSome_of_one_le_validCount t (by omega)
      exact ⟨0, j + 1, by omega, by rw [List.getD_cons_zero]; exact hv,
        by rw [List.getD_cons_succ]; exact hj⟩

/-- On a natural starting index the wrapper reduces to the scan loop. -/
lemma findNonNanIdx_natCast (vals : List Sample) (n : Nat) :
    findNonNanIdx vals (n : ℤ) = findNonNanIdxAux vals n := by
  rw [findNonNanIdx, if_pos (by omega : (0 : ℤ) ≤ (n : ℤ)), Int.toNat_natCast]

/-- Unfolding `instantValue` when both scans succeed: the result is the
source's branch expression over the two selected samples. -/
lemma instantValue_scan_eq (values : List Sample) (isRate : Bool) (step : ℤ)
    (last prev : ℚ) (i j : Nat)
    (hlen : 2 ≤ values.length)
    (hi : findNonNanIdx values ((values.length : ℤ) - 1) = (i : ℤ))
    (hi1 : 1 ≤ i)
    (hlast : values.getD i none = some last)
    (hj : findNonNanIdx values ((i : ℤ) - 1) = (j : ℤ))
    (hprev : values.getD j none = some prev) :
    instantValue values isRate step =
      some (if isRate = true
            then (if last < prev then last else last - prev) / ((step : ℚ) / 10 ^ 9)
            else last - prev) := by
  simp only [instantValue]
  rw [if_neg (show ¬values.length < 2 by omega)]
  rw [hi, if_neg (show ¬(i : ℤ) < 1 by omega), Int.toNat_natCast, hlast]
  simp only [hj, Int.toNat_natCast, hprev]
  rw [if_neg (show ¬(j : ℤ) = -1 by omega)]
  cases isRate <;> simp

/-- The reducer returns the undefined marker exactly on degenerate
windows: fewer than 2 positions, or fewer than 2 valid samples. -/
lemma instantValue_none_iff (values : List Sample) (isRate : Bool) (step : ℤ) :
    instantValue values isRate step = none ↔
      values.length < 2 ∨ validCount values < 2 := by
  by_cases hlen : values.length < 2
  · simp [instantValue, hlen]
  · have hlen2 : 2 ≤ values.length := by omega
    have hcast : findNonNanIdx values ((values.length : ℤ) - 1) =
        findNonNanIdxAux values (values.length - 1) := by
      rw [show ((values.length : ℤ) - 1) = ((values.length - 1 : Nat) : ℤ) by omega,
        findNonNanIdx_natCast]
    have hge := findNonNanIdxAux_ge values (values.length - 1)
    by_cases hr : findNonNanIdxAux values (values.length - 1) = -1
    · have hall := (findNonNanIdxAux_eq_neg_one_iff values (values.length - 1)).mp hr
      have hL : instantValue values isRate step = none := by
        simp only [instantValue]
        rw [if_neg hlen, hcast, hr]
        norm_num
      have hcnt : validCount values < 2 := by
        by_contra hc
        obtain ⟨idx, hidx⟩ := exists_getD_isSome_of_one_le_validCount values (by omega)
        have hbound := lt_length_of_getD_isSome values idx hidx
        rw [hall idx (by omega)] at hidx
        simp at hidx
      simp [hL, hcnt]
    · have h0 : 0 ≤ findNonNanIdxAux values (values.length - 1) := by omega
      obtain ⟨k, hk⟩ : ∃ k : Nat, findNonNanIdxAux values (values.length - 1) = (k : ℤ) :=
        ⟨(findNonNanIdxAux values (values.length - 1)).toNat, by omega⟩
      obtain ⟨hk1, hk2, hk3⟩ := findNonNanIdxAux_spec values (values.length - 1) k hk
      by_cases hk0 : k = 0
      · subst hk0
        have hL : instantValue values isRate step = none := by
          simp only [instantValue]
          rw [if_neg hlen, hcast, hk]
          norm_num
        have hcnt : validCount values < 2 := by
          by_contra hc
          obtain ⟨i, j, hij, hi, hj⟩ :=
            exists_two_getD_isSome_of_two_le_validCount values (by omega)
          have hjb := lt_length_of_getD_isSome values j hj
          rw [hk3 j (by omega) (by omega)] at hj
          simp at hj
        simp [hL, hcnt]
      · have hk1' : 1 ≤ k := by omega
        obtain ⟨last, hlast⟩ := Option.isSome_iff_exists.mp hk2
        have hcast2 : findNonNanIdx values ((k : ℤ) - 1) =
            findNonNanIdxAux values (k - 1) := by
          rw [show ((k : ℤ) - 1) = ((k - 1 : Nat) : ℤ) by omega, findNonNanIdx_natCast]
        by_cases hr2 : findNonNanIdxAux values (k - 1) = -1
        · have hall2 := (findNonNanIdxAux_eq_neg_one_iff values (k - 1)).mp hr2
          have hL : instantValue values isRate step = none := by
            simp only [instantValue]
            rw [if_neg hlen, hcast, hk,
              if_neg (show ¬(k : ℤ) < 1 by omega), Int.toNat_natCast, hlast]
            simp only [hcast2, hr2]
            norm_num
          have hcnt : validCount values < 2 := by
            by_contra hc
            obtain ⟨i, j, hij, hi, hj⟩ :=
              exists_two_getD_isSome_of_two_le_validCount values (by omega)
            have hib := lt_length_of_getD_isSome values i hi
            have hjb := lt_length_of_getD_isSome values j hj
            have honly : ∀ m : Nat, (values.getD m none).isSome = true → m = k := by
              intro m hm
              have hmb := lt_length_of_getD_isSome values m hm
              by_contra hmk
              rcases Nat.lt_or_ge m k with hlt | hge2
              · rw [hall2 m (by omega)] at hm
                simp at hm
              · rw [hk3 m (by omega) (by omega)] at hm
                simp at hm
            have hik := honly i hi
            have hjk := honly j hj
            omega
          simp [hL, hcnt]
        · have h02 : 0 ≤ findNonNanIdxAux values (k - 1) := by
            have := findNonNanIdxAux_ge values (k - 1)
            omega
          obtain ⟨j2, hj2⟩ : ∃ j2 : Nat, findNonNanIdxAux values (k - 1) = (j2 : ℤ) :=
            ⟨(findNonNanIdxAux values (k - 1)).toNat, by omega⟩
          obtain ⟨hj21, hj22, hj23⟩ := findNonNanIdxAux_spec values (k - 1) j2 hj2
          obtain ⟨prev, hprev⟩ := Option.isSome_iff_exists.mp hj22
          have hL := instantValue_scan_eq values isRate step last prev k j2 hlen2
            (by rw [hcast]; exact hk) hk1' hlast (by rw [hcast2]; exact hj2) hprev
          have hcnt : 2 ≤ validCount values :=
            two_le_validCount_of_two_getD_isSome values j2 k (by omega)
              (by rw [hprev]; rfl) (by rw [hlast]; rfl)
          rw [hL]
          constructor
          · intro hx
            simp at hx
          · intro hx
            rcases hx with h1 | h2
            · exact absurd h1 (by omega)
            · exact absurd h2 (by omega)

/-- Delta mode ignores the step duration entirely. -/
lemma instantValue_delta_step_irrelevant (values : List Sample) (s1 s2 : ℤ) :
    instantValue values false s1 = instantValue values false s2 := by
  simp [instantValue]

/-- State-passing embedding of the scan loop: the window is threaded
explicitly, so that "the reducer never writes the window" is a provable
fact about the embedding rather than a modelling assumption. Each
equation mirrors `findNonNanIdxAux` and returns the window it read. -/
def findNonNanIdxAuxSt : List Sample → Nat → ℤ × List Sample
  | vals, 0 => if (vals.getD 0 none).isSome then (0, vals) else (-1, vals)
  | vals, n + 1 =>
    if (vals.getD (n + 1) none).isSome then ((n : ℤ) + 1, vals)
    else findNonNanIdxAuxSt vals n

/-- State-passing embedding of `findNonNanIdx`. -/
def findNonNanIdxSt (vals : List Sample) (startingIdx : ℤ) : ℤ × List Sample :=
  if 0 ≤ startingIdx then findNonNanIdxAuxSt vals startingIdx.toNat else (-1, vals)

/-- State-passing embedding of `instantValue`: every read goes through
the threaded window, and the final window is returned beside the
scalar result. -/
def instantValueSt (values : List Sample) (isRate : Bool) (stepSize : ℤ) :
    Option ℚ × List Sample :=
  if values.length < 2 then (none, values)
  else
    let p1 := findNonNanIdxSt values ((values.length : ℤ) - 1)
    let nonNanIdx := p1.1
    let values1 := p1.2
    if nonNanIdx < 1 then (none, values1)
    else
      match values1.getD nonNanIdx.toNat none with
      | none => (none, values1)
      | some lastSample =>
        let p2 := findNonNanIdxSt values1 (nonNanIdx - 1)
        let nonNanIdx2 := p2.1
        let values2 := p2.2
        if nonNanIdx2 = -1 then (none, values2)
        else
          match values2.getD nonNanIdx2.toNat none with
          | none => (none, values2)
          | some previousSample =>
            let resultValue :=
              if isRate = true ∧ lastSample < previousSample then lastSample
              else lastSample - previousSample
            if isRate = true then (some (resultValue / ((stepSize : ℚ) / 10 ^ 9)), values2)
            else (some resultValue, values2)

/-- The threaded scan loop returns its window unchanged alongside the
pure scan's result. -/
lemma findNonNanIdxAuxSt_eq (vals : List Sample) :
    ∀ n, findNonNanIdxAuxSt vals n = (findNonNanIdxAux vals n, vals)
  | 0 => by
    unfold findNonNanIdxAuxSt findNonNanIdxAux
    split <;> rfl
  | n + 1 => by
    unfold findNonNanIdxAuxSt findNonNanIdxAux
    split
    · rfl
    · exact findNonNanIdxAuxSt_eq vals n

/-- The threaded scan returns its window unchanged alongside the pure
scan's result. -/
lemma findNonNanIdxSt_eq (vals : List Sample) (s : ℤ) :
    findNonNanIdxSt vals s = (findNonNanIdx vals s, vals) := by
  unfold findNonNanIdxSt findNonNanIdx
  split
  · exact findNonNanIdxAuxSt_eq vals s.toNat
  · rfl

/-- The threaded reducer computes the pure reducer's scalar and returns
the window unchanged. -/
lemma instantValueSt_eq (values : List Sample) (isRate : Bool) (step : ℤ) :
    instantValueSt values isRate step = (instantValue values isRate step, values) := by
  simp only [instantValueSt, instantValue, findNonNanIdxSt_eq]
  split
  · rfl
  · split
    · rfl
    · split
      · rfl
      · split
        · rfl
        · split
          · rfl
          · split <;> rfl

/-- A batch of reduction calls: each call carries its own window, mode
and step; the batch result is the list of per-call results. -/
def reduceAll (calls : List (List Sample × Bool × ℤ)) : List (Option ℚ) :=
  calls.map fun c => instantValue c.1 c.2.1 c.2.2


/-! ## Claim theorems -/

/-- C1: every window with fewer than 2 total positions, and every window
with fewer than two non-gap values regardless of total length (empty,
all-gap, or exactly one valid value anywhere), reduces to the undefined
marker, in both Rate and Delta mode and for every step duration. -/
theorem c1_insufficient_data_undefined (values : List Sample) (isRate : Bool) (step : ℤ)
    (h : values.length < 2 ∨ validCount values < 2) :
    instantValue values isRate step = none :=
  (instantValue_none_iff values isRate step).mpr h

/-- C1 witness: a three-position window holding a single valid value
reduces to the undefined marker in rate mode with a one-second step. -/
theorem c1_insufficient_data_undefined_witness :
    (([none, some 3, none] : List Sample).length < 2 ∨
      validCount [none, some 3, none] < 2) ∧
    instantValue [none, some 3, none] true (10 ^ 9) = none :=
  ⟨Or.inr (by norm_num [validCount]),
    c1_insufficient_data_undefined [none, some 3, none] true (10 ^ 9)
      (Or.inr (by norm_num [validCount]))⟩

/-- C2: in Rate mode, when the two most recent non-gap values satisfy
last < previous, the reducer detects a counter reset and returns last
divided by the step duration in seconds (not (last - previous)/step). -/
theorem c2_rate_counter_reset (values : List Sample) (step : ℤ) (last prev : ℚ)
    (i j : Nat)
    (hlen : 2 ≤ values.length)
    (hi : findNonNanIdx values ((values.length : ℤ) - 1) = (i : ℤ))
    (hi1 : 1 ≤ i)
    (hlast : values.getD i none = some last)
    (hj : findNonNanIdx values ((i : ℤ) - 1) = (j : ℤ))
    (hprev : values.getD j none = some prev)
    (hlt : last < prev) :
    instantValue values true step = some (last / ((step : ℚ) / 10 ^ 9)) := by
  rw [instantValue_scan_eq values true step last prev i j hlen hi hi1 hlast hj hprev]
  simp [hlt]

/-- C2 witness: window [50, 5] with a one-second step in rate mode gives
5 (the post-reset value itself, not 5 - 50). -/
theorem c2_rate_counter_reset_witness :
    (5 : ℚ) < 50 ∧ instantValue [some 50, some 5] true (10 ^ 9) = some 5 := by
  refine ⟨by norm_num, ?_⟩
  have h := c2_rate_counter_reset [some 50, some 5] (10 ^ 9) 5 50 1 0
    (by norm_num)
    (by norm_num [findNonNanIdx, findNonNanIdxAux])
    (by norm_num)
    rfl
    (by norm_num [findNonNanIdx, findNonNanIdxAux])
    rfl
    (by norm_num)
  rw [h]
  norm_num

/-- C3: in Rate mode, when the two most recent non-gap values satisfy
last >= previous, the reducer returns (last - previous) divided by the
step duration in seconds (step in nanoseconds times 10^-9). -/
theorem c3_rate_per_second (values : List Sample) (step : ℤ) (last prev : ℚ)
    (i j : Nat)
    (hlen : 2 ≤ values.length)
    (hi : findNonNanIdx values ((values.length : ℤ) - 1) = (i : ℤ))
    (hi1 : 1 ≤ i)
    (hlast : values.getD i none = some last)
    (hj : findNonNanIdx values ((i : ℤ) - 1) = (j : ℤ))
    (hprev : values.getD j none = some prev)
    (hge : prev ≤ last) :
    instantValue values true step = some ((last - prev) / ((step : ℚ) / 10 ^ 9)) := by
  rw [instantValue_scan_eq values true step last prev i j hlen hi hi1 hlast hj hprev]
  simp [not_lt.mpr hge]

/-- C3 witness: window [10, 20] with a one-second step in rate mode gives
(20 - 10)/1 = 10. -/
theorem c3_rate_per_second_witness :
    (10 : ℚ) ≤ 20 ∧ instantValue [some 10, some 20] true (10 ^ 9) = some 10 := by
  refine ⟨by norm_num, ?_⟩
  have h := c3_rate_per_second [some 10, some 20] (10 ^ 9) 20 10 1 0
    (by norm_num)
    (by norm_num [findNonNanIdx, findNonNanIdxAux])
    (by norm_num)
    rfl
    (by norm_num [findNonNanIdx, findNonNanIdxAux])
    rfl
    (by norm_num)
  rw [h]
  norm_num

/-- C4: in Delta mode, with at least two non-gap values, the reducer
returns exactly last - previous with no counter-reset adjustment (even
when last < previous) and no step normalization: the result is the same
for every step duration. -/
theorem c4_delta_raw_difference (values : List Sample) (step : ℤ) (last prev : ℚ)
    (i j : Nat)
    (hlen : 2 ≤ values.length)
    (hi : findNonNanIdx values ((values.length : ℤ) - 1) = (i : ℤ))
    (hi1 : 1 ≤ i)
    (hlast : values.getD i none = some last)
    (hj : findNonNanIdx values ((i : ℤ) - 1) = (j : ℤ))
    (hprev : values.getD j none = some prev) :
    instantValue values false step = some (last - prev) ∧
      ∀ s1 s2 : ℤ, instantValue values false s1 = instantValue values false s2 := by
  constructor
  · rw [instantValue_scan_eq values false step last prev i j hlen hi hi1 hlast hj hprev]
    simp
  · exact fun s1 s2 => instantValue_delta_step_irrelevant values s1 s2

/-- C4 witness: window [50, 5] with a one-second step in delta mode gives
-45 (no reset adjustment although 5 < 50). -/
theorem c4_delta_raw_difference_witness :
    (5 : ℚ) < 50 ∧ instantValue [some 50, some 5] false (10 ^ 9) = some (-45) := by
  refine ⟨by norm_num, ?_⟩
  have h := (c4_delta_raw_difference [some 50, some 5] (10 ^ 9) 5 50 1 0
    (by norm_num)
    (by norm_num [findNonNanIdx, findNonNanIdxAux])
    (by norm_num)
    rfl
    (by norm_num [findNonNanIdx, findNonNanIdxAux])
    rfl).1
  rw [h]
  norm_num

/-- C5: the reducer is driven by two backward scans: from any starting
index the scan finds the most recent non-gap index (tolerating
arbitrarily many consecutive gaps), else -1; and on the gap-tolerance
example [10, NaN, NaN, 40] with a one-second step in rate mode the
result is (40 - 10)/1 = 30, normalized by the fixed step constant, not
the index distance. -/
theorem c5_backward_scan_gap_tolerance :
    (∀ (vals : List Sample) (start : Nat),
      (findNonNanIdx vals (start : ℤ) = -1 ∧
        ∀ i : Nat, i ≤ start → vals.getD i none = none) ∨
      (∃ k : Nat, findNonNanIdx vals (start : ℤ) = (k : ℤ) ∧ k ≤ start ∧
        (vals.getD k none).isSome = true ∧
        ∀ i : Nat, k < i → i ≤ start → vals.getD i none = none)) ∧
    instantValue [some 10, none, none, some 40] true (10 ^ 9) = some 30 := by
  constructor
  · intro vals start
    rw [findNonNanIdx_natCast]
    by_cases hr : findNonNanIdxAux vals start = -1
    · exact Or.inl ⟨hr, (findNonNanIdxAux_eq_neg_one_iff vals start).mp hr⟩
    · have hge := findNonNanIdxAux_ge vals start
      obtain ⟨k, hk⟩ : ∃ k : Nat, findNonNanIdxAux vals start = (k : ℤ) :=
        ⟨(findNonNanIdxAux vals start).toNat, by omega⟩
      obtain ⟨h1, h2, h3⟩ := findNonNanIdxAux_spec vals start k hk
      exact Or.inr ⟨k, hk, h1, h2, h3⟩
  · norm_num [instantValue, findNonNanIdx, findNonNanIdxAux, Int.toNat_ofNat, List.getD]
    norm_num [show Int.toNat (3 : ℤ) = 3 from rfl]

/-- C6: NewRateOp fails on every unrecognized mode token with an error
carrying the offending token (and builds no processor), and succeeds on
each of the two recognized tokens. -/
theorem c6_factory_mode_validation :
    ∀ (optype : String) (step : ℤ),
      ((optype ≠ IRateTemporalType ∧ optype ≠ IDeltaTemporalType) →
        NewRateOp optype step = Except.error ("unknown rate type: " ++ optype)) ∧
      ((optype = IRateTemporalType ∨ optype = IDeltaTemporalType) →
        ∃ node : RateNode, NewRateOp optype step = Except.ok node) := by
  intro optype step
  constructor
  · intro h
    rw [NewRateOp, if_neg (not_or.mpr ⟨h.1, h.2⟩)]
  · intro h
    exact ⟨⟨optype, step⟩, by rw [NewRateOp, if_pos h]; rfl⟩

/-- C7: the reducer is total: every input yields either a scalar or the
undefined marker (never an error), the undefined marker appears exactly
on degenerate input, and both backward scans stay between -1 and their
starting index (no out-of-bounds step). -/
theorem c7_reducer_total :
    (∀ (values : List Sample) (isRate : Bool) (step : ℤ),
      instantValue values isRate step = none ∨
        ∃ q : ℚ, instantValue values isRate step = some q) ∧
    (∀ (values : List Sample) (isRate : Bool) (step : ℤ),
      instantValue values isRate step = none ↔
        values.length < 2 ∨ validCount values < 2) ∧
    (∀ (vals : List Sample) (start : Nat),
      -1 ≤ findNonNanIdx vals (start : ℤ) ∧
        findNonNanIdx vals (start : ℤ) ≤ (start : ℤ)) := by
  refine ⟨fun values isRate step => ?_, instantValue_none_iff, fun vals start => ?_⟩
  · cases hv : instantValue values isRate step
    · exact Or.inl rfl
    · exact Or.inr ⟨_, rfl⟩
  · rw [findNonNanIdx_natCast]
    exact ⟨findNonNanIdxAux_ge vals start, findNonNanIdxAux_le vals start⟩

/-- C8: the reducer is deterministic: its output is a function of window,
mode and step alone, and in any batch of calls each result equals the
reduction of its own call, independent of every other call in the
batch. -/
theorem c8_reducer_deterministic :
    (∀ (values : List Sample) (isRate : Bool) (step : ℤ),
      instantValue values isRate step = instantValue values isRate step) ∧
    (∀ (calls : List (List Sample × Bool × ℤ)) (n : Nat),
      (reduceAll calls)[n]? =
        (calls[n]?).map fun c => instantValue c.1 c.2.1 c.2.2) := by
  refine ⟨fun _ _ _ => rfl, fun calls n => ?_⟩
  simp [reduceAll]

/-- C9: the reducer never mutates its window: in the state-passing
embedding the returned window is exactly the supplied one, and the
scalar agrees with the pure reducer. -/
theorem c9_reducer_preserves_window :
    ∀ (values : List Sample) (isRate : Bool) (step : ℤ),
      (instantValueSt values isRate step).2 = values ∧
      (instantValueSt values isRate step).1 = instantValue values isRate step := by
  intro values isRate step
  rw [instantValueSt_eq]
  exact ⟨rfl, rfl⟩

/-- C10: every processor built by NewRateOp stores one of the two
recognized tokens, so Process never reaches the panic branch: it always
dispatches to instantValue, with isRate true for the rate token and
false for the delta token. -/
theorem c10_process_panic_unreachable (optype : String) (step : ℤ) (node : RateNode)
    (values : List Sample)
    (h : NewRateOp optype step = Except.ok node) :
    node.Process values =
      some (instantValue values (if optype = IRateTemporalType then true else false) step) := by
  rw [NewRateOp] at h
  by_cases hc : optype = IRateTemporalType ∨ optype = IDeltaTemporalType
  · rw [if_pos hc, newBaseOp] at h
    injection h with h2
    subst h2
    rcases hc with hc | hc
    · simp [RateNode.Process, hc]
    · have hne : IDeltaTemporalType ≠ IRateTemporalType := by decide
      simp [RateNode.Process, hc, hne]
  · rw [if_neg hc] at h
    simp at h

/-- C10 witness: the processor built for the rate token dispatches to
instantValue in rate mode on the empty window. -/
theorem c10_process_panic_unreachable_witness :
    NewRateOp IRateTemporalType 1 = Except.ok ⟨IRateTemporalType, 1⟩ ∧
    (RateNode.mk IRateTemporalType 1).Process [] =
      some (instantValue []
        (if IRateTemporalType = IRateTemporalType then true else false) 1) :=
  ⟨rfl, c10_process_panic_unreachable IRateTemporalType 1 ⟨IRateTemporalType, 1⟩ [] rfl⟩
